import Mathlib

/-!
Formal model of `train_ee.py` (PSENet EEG/EOG training script).

The script is orchestration glue around an external deep-learning framework:
a metric accumulator (`AverageMeter`), a stub dataset adapter (`MData`), an
evaluation routine (`test`), a model/checkpoint loader (`get_model`), a
training loop with best-checkpoint retention (`train`), and an entry point
iterating over a fold range.

The embedding below is shallow:
* Python floats are modelled as rationals (`ℚ`);
* Python strings are modelled as `List Char` (filenames, loss-mode tags);
* the filesystem directory of a fold is a `Finset (List Char)` of file paths;
* the network (`net.py`, not part of this file's sources) and the composite
  loss (`loss.py`) are abstract parameters: every theorem about `test`/`train`
  quantifies over them;
* Python exceptions are `Except`/explicit error values.
-/

namespace TrainEE

/-! ## AverageMeter (`train_ee.py` lines 12–28) -/

/-- State of `AverageMeter`: current value, running average, running sum and
running count, all Python numbers modelled as `ℚ`. -/
structure AverageMeter where
  val : ℚ
  avg : ℚ
  sum : ℚ
  count : ℚ
deriving Repr, DecidableEq

namespace AverageMeter

/-- Python `reset()`: zeroes all four fields (also what `__init__` does). -/
def reset : AverageMeter := ⟨0, 0, 0, 0⟩

/-- Python `update(val, n=1)`: stores `val`, adds `val*n` to `sum`, `n` to `count`,
and recomputes `avg = sum / count`. -/
def update (m : AverageMeter) (val : ℚ) (n : ℚ) : AverageMeter :=
  let s := m.sum + val * n
  let c := m.count + n
  ⟨val, s / c, s, c⟩

/-- Apply a sequence of `update` calls, oldest first. -/
def runUpdates (m : AverageMeter) (l : List (ℚ × ℚ)) : AverageMeter :=
  l.foldl (fun m p => m.update p.1 p.2) m

theorem runUpdates_append (m : AverageMeter) (l₁ l₂ : List (ℚ × ℚ)) :
    runUpdates m (l₁ ++ l₂) = runUpdates (runUpdates m l₁) l₂ := by
  simp [runUpdates, List.foldl_append]

theorem sum_runUpdates (m : AverageMeter) (l : List (ℚ × ℚ)) :
    (runUpdates m l).sum = m.sum + (l.map fun p => p.1 * p.2).sum := by
  induction l generalizing m with
  | nil => simp [runUpdates]
  | cons a t ih =>
    simp only [runUpdates, List.foldl_cons, List.map_cons, List.sum_cons]
    have := ih (m.update a.1 a.2)
    simp only [runUpdates] at this
    rw [this]
    simp [update]
    ring

theorem count_runUpdates (m : AverageMeter) (l : List (ℚ × ℚ)) :
    (runUpdates m l).count = m.count + (l.map Prod.snd).sum := by
  induction l generalizing m with
  | nil => simp [runUpdates]
  | cons a t ih =>
    simp only [runUpdates, List.foldl_cons, List.map_cons, List.sum_cons]
    have := ih (m.update a.1 a.2)
    simp only [runUpdates] at this
    rw [this]
    simp [update]
    ring

theorem avg_runUpdates_ne_nil (m : AverageMeter) (l : List (ℚ × ℚ)) (h : l ≠ []) :
    (runUpdates m l).avg = (runUpdates m l).sum / (runUpdates m l).count := by
  induction l using List.reverseRecOn with
  | nil => exact absurd rfl h
  | append_singleton t a _ =>
    rw [runUpdates_append]
    simp [runUpdates, update]

end AverageMeter

/-! ## Strings, filenames, checkpoint names

Python strings are modelled as `List Char`.  The script builds checkpoint
names with `'{}/{}-{:.4f}.pt'.format(save_path, epoch, test_acc)` and parses
them back with `int(os.path.basename(file).split('-')[0])`. -/

/-- The character for a single decimal digit `d < 10` (codepoint `48 + d`). -/
def digitChar10 (d : ℕ) : Char := Char.ofNat (48 + d)

/-- Decimal rendering of a natural number, most significant digit first,
as Python `str` produces for a nonnegative `int` (`str(0) = "0"`). -/
def natChars (n : ℕ) : List Char :=
  if n = 0 then [digitChar10 0] else ((Nat.digits 10 n).map digitChar10).reverse

/-- The numeric value of a decimal digit character (junk on non-digits). -/
def digitVal (c : Char) : ℕ := c.toNat - 48

/-- Whether `c` is one of `'0'..'9'`. -/
def isDigit10 (c : Char) : Bool := 48 ≤ c.toNat && c.toNat ≤ 57

/-- Python `int(s)` on a plain decimal string: `some` of the value when the
string is nonempty and all digits, `none` (a `ValueError`) otherwise. -/
def parseNatChars (l : List Char) : Option ℕ :=
  if l ≠ [] ∧ l.all isDigit10 then
    some (Nat.ofDigits 10 ((l.map digitVal).reverse))
  else none

/-- Python `os.path.basename`: the part of the path after the last `'/'`. -/
def basename (l : List Char) : List Char :=
  (l.reverse.takeWhile (fun c => c != Char.ofNat 47)).reverse

/-- Python `s.split(sep)[0]`: the longest prefix of `s` not containing
`sep` (the whole string when `sep` does not occur). -/
def splitHead (sep : Char) (l : List Char) : List Char :=
  l.takeWhile (fun c => c != sep)

/-- The parse `int(os.path.basename(file).split('-')[0])` from `get_model`
(`train_ee.py` line 119), as an `Option`: `none` is a fatal `ValueError`. -/
def parseEpochOfFile (file : List Char) : Option ℕ :=
  parseNatChars (splitHead (Char.ofNat 45) (basename file))

/-- Exactly four decimal digits with leading zeros (the fractional part of a
`{:.4f}` rendering), for `m < 10000`. -/
def pad4 (m : ℕ) : List Char :=
  List.replicate (4 - (natChars m).length) (digitChar10 0) ++ natChars m

/-- Python `'{:.4f}'.format(x)` modelled over `ℚ`: round `x * 10000` to the
nearest integer and print integer part, `'.'`, and four fractional digits.
(Python rounds the underlying binary float half-to-even; the claims never
depend on the exact rounding of the fractional digits.) -/
def fmt4 (q : ℚ) : List Char :=
  if Rat.floor (q * 10000 + 1 / 2) < (0 : ℤ) then
    Char.ofNat 45 :: (natChars ((-Rat.floor (q * 10000 + 1 / 2)).toNat / 10000) ++
      Char.ofNat 46 :: pad4 ((-Rat.floor (q * 10000 + 1 / 2)).toNat % 10000))
  else natChars ((Rat.floor (q * 10000 + 1 / 2)).toNat / 10000) ++
    Char.ofNat 46 :: pad4 ((Rat.floor (q * 10000 + 1 / 2)).toNat % 10000)

/-- The checkpoint basename `'{}-{:.4f}.pt'.format(epoch, test_acc)`. -/
def mkCkptName (epoch : ℕ) (test_acc : ℚ) : List Char :=
  natChars epoch ++ Char.ofNat 45 :: (fmt4 test_acc ++
    [Char.ofNat 46, Char.ofNat 112, Char.ofNat 116])

/-- The full checkpoint path `'{}/{}-{:.4f}.pt'.format(save_path, epoch,
test_acc)` (`train_ee.py` line 184). -/
def ckptPath (save_path : List Char) (epoch : ℕ) (test_acc : ℚ) : List Char :=
  save_path ++ Char.ofNat 47 :: mkCkptName epoch test_acc

theorem toNat_digitChar10 {d : ℕ} (hd : d < 10) :
    (digitChar10 d).toNat = 48 + d := by
  interval_cases d <;> decide

theorem isDigit10_digitChar10 {d : ℕ} (hd : d < 10) :
    isDigit10 (digitChar10 d) = true := by
  interval_cases d <;> decide

theorem digitVal_digitChar10 {d : ℕ} (hd : d < 10) :
    digitVal (digitChar10 d) = d := by
  interval_cases d <;> decide

theorem natChars_all_digit (n : ℕ) :
    ∀ c ∈ natChars n, isDigit10 c = true := by
  intro c hc
  unfold natChars at hc
  split at hc
  · simp at hc
    subst hc
    decide
  · simp only [List.mem_reverse, List.mem_map] at hc
    obtain ⟨d, hd, rfl⟩ := hc
    exact isDigit10_digitChar10 (Nat.digits_lt_base (by norm_num) hd)

theorem natChars_ne_nil (n : ℕ) : natChars n ≠ [] := by
  unfold natChars
  split
  · simp
  · simpa using Nat.digits_ne_nil_iff_ne_zero.mpr (by assumption)

theorem takeWhile_append_stop {α : Type} {p : α → Bool} {l₁ : List α}
    (h : ∀ a ∈ l₁, p a = true) {x : α} (hx : p x = false) (l₂ : List α) :
    (l₁ ++ x :: l₂).takeWhile p = l₁ := by
  induction l₁ with
  | nil => simp [List.takeWhile_cons, hx]
  | cons a t ih =>
    have ha : p a = true := h a (List.mem_cons_self a t)
    have ht := ih fun b hb => h b (List.mem_cons_of_mem a hb)
    simp [List.takeWhile_cons, ha, ht]

theorem parseNatChars_natChars (n : ℕ) :
    parseNatChars (natChars n) = some n := by
  unfold parseNatChars
  rw [if_pos ⟨natChars_ne_nil n, List.all_eq_true.mpr (natChars_all_digit n)⟩]
  congr 1
  rcases eq_or_ne n 0 with rfl | hn
  · decide
  · unfold natChars
    rw [if_neg hn, List.map_reverse, List.reverse_reverse, List.map_map]
    have hmap : (Nat.digits 10 n).map (digitVal ∘ digitChar10) = Nat.digits 10 n := by
      apply List.map_congr_left ?_ |>.trans (List.map_id _)
      intro d hd
      exact digitVal_digitChar10 (Nat.digits_lt_base (by norm_num) hd)
    rw [hmap, Nat.ofDigits_digits]

theorem digit_ne_char {c : Char} (h : isDigit10 c = true) {m : ℕ}
    (hm : (Char.ofNat m).toNat = m) (hlt : m < 48) : c ≠ Char.ofNat m := by
  intro heq
  subst heq
  unfold isDigit10 at h
  simp only [Bool.and_eq_true, decide_eq_true_eq] at h
  omega

theorem mem_pad4_digit (m : ℕ) : ∀ c ∈ pad4 m, isDigit10 c = true := by
  intro c hc
  unfold pad4 at hc
  rcases List.mem_append.mp hc with hc | hc
  · rw [List.eq_of_mem_replicate hc]
    decide
  · exact natChars_all_digit _ _ hc

theorem no_slash_fmt4 (q : ℚ) : ∀ c ∈ fmt4 q, c ≠ Char.ofNat 47 := by
  intro c hc
  unfold fmt4 at hc
  split at hc <;>
    simp only [List.mem_cons, List.mem_append] at hc
  · rcases hc with rfl | hc | rfl | hc
    · decide
    · exact digit_ne_char (natChars_all_digit _ _ hc) (by decide) (by norm_num)
    · decide
    · exact digit_ne_char (mem_pad4_digit _ _ hc) (by decide) (by norm_num)
  · rcases hc with hc | rfl | hc
    · exact digit_ne_char (natChars_all_digit _ _ hc) (by decide) (by norm_num)
    · decide
    · exact digit_ne_char (mem_pad4_digit _ _ hc) (by decide) (by norm_num)

theorem no_slash_mkCkptName (epoch : ℕ) (acc : ℚ) :
    ∀ c ∈ mkCkptName epoch acc, c ≠ Char.ofNat 47 := by
  intro c hc
  unfold mkCkptName at hc
  simp only [List.mem_append, List.mem_cons] at hc
  rcases hc with hc | rfl | hc | hc
  · exact digit_ne_char (natChars_all_digit _ _ hc) (by decide) (by norm_num)
  · decide
  · exact no_slash_fmt4 _ _ hc
  · simp only [List.mem_cons, List.not_mem_nil, or_false] at hc
    rcases hc with rfl | rfl | rfl <;> decide

theorem basename_append {sp name : List Char}
    (h : ∀ c ∈ name, c ≠ Char.ofNat 47) :
    basename (sp ++ Char.ofNat 47 :: name) = name := by
  unfold basename
  rw [List.reverse_append, List.reverse_cons, List.append_assoc,
    List.singleton_append]
  rw [takeWhile_append_stop ?_ ?_ sp.reverse, List.reverse_reverse]
  · intro a ha
    simpa using h a (List.mem_reverse.mp ha)
  · simp

theorem splitHead_mkCkptName (epoch : ℕ) (acc : ℚ) :
    splitHead (Char.ofNat 45) (mkCkptName epoch acc) = natChars epoch := by
  unfold splitHead mkCkptName
  rw [takeWhile_append_stop ?_ ?_ _]
  · intro a ha
    simpa using digit_ne_char (natChars_all_digit _ _ ha) (by decide) (by norm_num)
  · simp

/-- Parsing the epoch back out of a freshly built checkpoint path recovers
the epoch: `int(os.path.basename(path).split('-')[0]) = epoch`. -/
theorem parseEpochOfFile_ckptPath (sp : List Char) (epoch : ℕ) (acc : ℚ) :
    parseEpochOfFile (ckptPath sp epoch acc) = some epoch := by
  unfold parseEpochOfFile ckptPath
  rw [basename_append (no_slash_mkCkptName epoch acc),
    splitHead_mkCkptName, parseNatChars_natChars]

theorem ckptPath_ne_nil (sp : List Char) (epoch : ℕ) (acc : ℚ) :
    ckptPath sp epoch acc ≠ [] := by
  unfold ckptPath
  simp

/-! ## Checkpoint retention in `train` (`train_ee.py` lines 135–137, 179–185)

The checkpoint bookkeeping of the epoch loop touches three pieces of state:
`best_acc` (initialized to `0`), `file_name` (initialized to the empty
string), and the fold directory's contents, modelled as a `Finset` of file
paths.  The rest of an epoch (batch loop, optimizer, logging) influences the
decision only through the epoch's validation and test accuracies, which the
model takes as inputs. -/

/-- The checkpoint-relevant state of one `train()` call. -/
structure CkptState where
  best_acc : ℚ
  file_name : List Char
  fs : Finset (List Char)
deriving DecidableEq

/-- One epoch's checkpoint decision (`train_ee.py` lines 179–185):
if `best_acc <= valid_acc`, update `best_acc`, delete the previously recorded
file when its name is non-empty (`if file_name`) and it exists
(`os.path.exists`), then save under `'{}/{}-{:.4f}.pt'` (`torch.save`
overwrites, so the directory gets the new path inserted). -/
def ckptStep (save_path : List Char) (s : CkptState) (epoch : ℕ)
    (valid_acc test_acc : ℚ) : CkptState :=
  if s.best_acc ≤ valid_acc then
    { best_acc := valid_acc,
      file_name := ckptPath save_path epoch test_acc,
      fs := insert (ckptPath save_path epoch test_acc)
          (if s.file_name ≠ [] ∧ s.file_name ∈ s.fs then
            s.fs.erase s.file_name
          else s.fs) }
  else s

/-- The epoch loop of `train()` restricted to the checkpoint state: one
`ckptStep` per epoch, epochs counted from `epoch`, with the epoch's
(validation, test) accuracy pairs given as a list. -/
def runCkpt (save_path : List Char) (s : CkptState) (epoch : ℕ) :
    List (ℚ × ℚ) → CkptState
  | [] => s
  | (v, t) :: rest => runCkpt save_path (ckptStep save_path s epoch v t) (epoch + 1) rest

/-- The state a fresh (non-resumed) `train()` call starts from: `best_acc = 0`,
no recorded file name, directory contents `fs0`. -/
def initCkpt (fs0 : Finset (List Char)) : CkptState := ⟨0, [], fs0⟩

theorem runCkpt_append (sp : List Char) (s : CkptState) (e : ℕ)
    (l₁ l₂ : List (ℚ × ℚ)) :
    runCkpt sp s e (l₁ ++ l₂)
      = runCkpt sp (runCkpt sp s e l₁) (e + l₁.length) l₂ := by
  induction l₁ generalizing s e with
  | nil => simp [runCkpt]
  | cons a t ih =>
    obtain ⟨v, tt⟩ := a
    simp only [List.cons_append, runCkpt, List.length_cons]
    rw [show t.append l₂ = t ++ l₂ from rfl, ih]
    congr 1
    omega

theorem ckptStep_best (sp : List Char) (s : CkptState) (e : ℕ) (v t : ℚ) :
    (ckptStep sp s e v t).best_acc = max s.best_acc v := by
  unfold ckptStep
  split
  · simp [max_eq_right (by assumption)]
  · simp [max_eq_left (le_of_not_le (by assumption))]

theorem runCkpt_best (sp : List Char) (s : CkptState) (e : ℕ)
    (l : List (ℚ × ℚ)) :
    (runCkpt sp s e l).best_acc = (l.map Prod.fst).foldl max s.best_acc := by
  induction l generalizing s e with
  | nil => simp [runCkpt]
  | cons a t ih =>
    obtain ⟨v, tt⟩ := a
    simp only [runCkpt, List.map_cons, List.foldl_cons]
    rw [ih, ckptStep_best]

/-- The maximum validation accuracy over the run's epochs, with the loop's
initialization `best_acc = 0` folded in. -/
def maxValid (l : List (ℚ × ℚ)) : ℚ := (l.map Prod.fst).foldl max 0

theorem maxValid_concat (l : List (ℚ × ℚ)) (v t : ℚ) :
    maxValid (l ++ [(v, t)]) = max (maxValid l) v := by
  simp [maxValid, List.foldl_append]

/-- The invariant a fresh `train()` call maintains: every file in the fold
directory is the currently recorded checkpoint, and while no name has been
recorded the directory is empty. -/
def CkptInv (s : CkptState) : Prop :=
  (∀ f ∈ s.fs, f = s.file_name) ∧ (s.file_name = [] → s.fs = ∅)

theorem initCkpt_inv : CkptInv (initCkpt ∅) :=
  ⟨fun f hf => absurd hf (Finset.not_mem_empty f), fun _ => rfl⟩

theorem ckptStep_saved_of_inv {s : CkptState} (hinv : CkptInv s)
    (sp : List Char) (e : ℕ) (v t : ℚ) (hle : s.best_acc ≤ v) :
    ckptStep sp s e v t = ⟨v, ckptPath sp e t, {ckptPath sp e t}⟩ := by
  unfold ckptStep
  rw [if_pos hle]
  have hempty : (if s.file_name ≠ [] ∧ s.file_name ∈ s.fs then
      s.fs.erase s.file_name else s.fs) = ∅ := by
    split
    · apply Finset.eq_empty_iff_forall_not_mem.mpr
      intro f hf
      exact Finset.ne_of_mem_erase hf (hinv.1 f (Finset.mem_of_mem_erase hf))
    · next hcond =>
      push_neg at hcond
      rcases eq_or_ne s.file_name [] with hn | hn
      · exact hinv.2 hn
      · apply Finset.eq_empty_iff_forall_not_mem.mpr
        intro f hf
        exact hcond hn (hinv.1 f hf ▸ hf)
  rw [hempty]
  simp

theorem ckptStep_inv {s : CkptState} (hinv : CkptInv s) (sp : List Char)
    (e : ℕ) (v t : ℚ) : CkptInv (ckptStep sp s e v t) := by
  by_cases hle : s.best_acc ≤ v
  · rw [ckptStep_saved_of_inv hinv sp e v t hle]
    refine ⟨fun f hf => by simpa using hf, fun h => absurd h ?_⟩
    exact ckptPath_ne_nil sp e t
  · unfold ckptStep
    rw [if_neg hle]
    exact hinv

theorem runCkpt_inv {s : CkptState} (hinv : CkptInv s) (sp : List Char)
    (e : ℕ) (l : List (ℚ × ℚ)) : CkptInv (runCkpt sp s e l) := by
  induction l generalizing s e with
  | nil => exact hinv
  | cons a t ih =>
    obtain ⟨v, tt⟩ := a
    exact ih (ckptStep_inv hinv sp e v tt) (e + 1)

theorem card_le_one_of_inv {s : CkptState} (hinv : CkptInv s) :
    s.fs.card ≤ 1 :=
  Finset.card_le_one.mpr fun a ha b hb => (hinv.1 a ha).trans (hinv.1 b hb).symm

/-- Final-state characterization of a fresh run: the retained checkpoint was
saved at the last epoch attaining the maximum validation accuracy. -/
theorem runCkpt_fresh_spec (sp : List Char) (accs : List (ℚ × ℚ))
    (hnn : ∀ p ∈ accs, 0 ≤ p.1) (hne : accs ≠ []) :
    ∃ e, ∃ he : e < accs.length,
      (runCkpt sp (initCkpt ∅) 0 accs).file_name = ckptPath sp e accs[e].2 ∧
      (runCkpt sp (initCkpt ∅) 0 accs).fs = {ckptPath sp e accs[e].2} ∧
      accs[e].1 = maxValid accs ∧
      ∀ j, (hj : j < accs.length) → e < j → accs[j].1 < maxValid accs := by
  induction accs using List.reverseRecOn with
  | nil => exact absurd rfl hne
  | append_singleton l a ih =>
    obtain ⟨v, t⟩ := a
    have hstep : runCkpt sp (initCkpt ∅) 0 (l ++ [(v, t)])
        = ckptStep sp (runCkpt sp (initCkpt ∅) 0 l) l.length v t := by
      rw [runCkpt_append]
      simp [runCkpt]
    have hinv : CkptInv (runCkpt sp (initCkpt ∅) 0 l) :=
      runCkpt_inv initCkpt_inv sp 0 l
    have hbest : (runCkpt sp (initCkpt ∅) 0 l).best_acc = maxValid l := by
      rw [runCkpt_best]
      rfl
    rcases eq_or_ne l [] with rfl | hl
    · have hv : (0 : ℚ) ≤ v := hnn (v, t) (by simp)
      have hle0 : (runCkpt sp (initCkpt ∅) 0 ([] : List (ℚ × ℚ))).best_acc ≤ v := by
        rw [hbest]
        simpa [maxValid] using hv
      have hsave := ckptStep_saved_of_inv hinv sp 0 v t hle0
      refine ⟨0, by simp, ?_, ?_, ?_, ?_⟩
      · rw [hstep]
        simp only [List.length_nil]
        rw [hsave]
        simp
      · rw [hstep]
        simp only [List.length_nil]
        rw [hsave]
        simp
      · simp [maxValid, max_eq_right hv]
      · intro j hj hej
        have hj' : j < 1 := by simpa using hj
        exact absurd hej (by omega)
    · obtain ⟨e, he, hfn, hfs, hmax, hlast⟩ :=
        ih (fun p hp => hnn p (List.mem_append_left _ hp)) hl
      by_cases hle : maxValid l ≤ v
      · have hsave := ckptStep_saved_of_inv hinv sp l.length v t (by rw [hbest]; exact hle)
        have hget : (l ++ [(v, t)])[l.length] = (v, t) :=
          List.getElem_concat_length l (v, t) l.length rfl (by simp)
        refine ⟨l.length, by simp, ?_, ?_, ?_, ?_⟩
        · rw [hstep, hsave, hget]
        · rw [hstep, hsave, hget]
        · rw [maxValid_concat, max_eq_right hle, hget]
        · intro j hj hej
          have hj' : j < l.length + 1 := by simpa using hj
          exact absurd hej (by omega)
      · have hnosave : ckptStep sp (runCkpt sp (initCkpt ∅) 0 l) l.length v t
            = runCkpt sp (initCkpt ∅) 0 l := by
          unfold ckptStep
          rw [if_neg (by rw [hbest]; exact hle)]
        have hM : maxValid (l ++ [(v, t)]) = maxValid l := by
          rw [maxValid_concat, max_eq_left (le_of_not_le hle)]
        have he' : e < (l ++ [(v, t)]).length := by
          simp only [List.length_append, List.length_cons, List.length_nil]
          omega
        refine ⟨e, he', ?_, ?_, ?_, ?_⟩
        · rw [hstep, hnosave, hfn]
          congr 1
          rw [List.getElem_append_left he]
        · rw [hstep, hnosave, hfs]
          congr 2
          rw [List.getElem_append_left he]
        · rw [List.getElem_append_left he, hM]
          exact hmax
        · intro j hj hej
          rw [hM]
          rcases Nat.lt_or_ge j l.length with hjl | hjl
          · rw [List.getElem_append_left hjl]
            exact hlast j hjl hej
          · have hj'' : j = l.length := by
              have : j < l.length + 1 := by simpa using hj
              omega
            rw [List.getElem_concat_length l (v, t) j hj'' hj]
            exact lt_of_not_le hle

end TrainEE

namespace TrainEE

/-- C1 counterexample: a run resumed from an existing checkpoint violates the
"at most one checkpoint file" invariant.  The fold directory holds the file
saved at epoch 0 by the previous run; the resumed `train()` call starts with
`best_acc = 0` and `file_name = ''`, so its first epoch (epoch 1) saves a new
file without deleting the old one: two checkpoint files coexist. -/
theorem ckpt_retention_counterexample :
    ¬ ((runCkpt [] (initCkpt {ckptPath [] 0 1}) 1 [((1 : ℚ), (1 : ℚ))]).fs.card ≤ 1) := by
  have hne : ckptPath [] 1 1 ≠ ckptPath [] 0 1 := by
    intro h
    have h1 := parseEpochOfFile_ckptPath [] 1 1
    rw [h, parseEpochOfFile_ckptPath] at h1
    exact absurd (Option.some.inj h1) zero_ne_one
  have hrun : (runCkpt [] (initCkpt {ckptPath [] 0 1}) 1 [((1 : ℚ), (1 : ℚ))]).fs
      = insert (ckptPath [] 1 1) {ckptPath [] 0 1} := by
    show (ckptStep [] (initCkpt {ckptPath [] 0 1}) 1 1 1).fs = _
    unfold ckptStep initCkpt
    rw [if_pos (by norm_num)]
    simp
  rw [hrun, Finset.card_insert_of_not_mem (by simpa using hne)]
  simp

/-- C1 (amended): for a `train()` run started on an empty fold directory (not
resumed), at most one checkpoint file exists at every point during and after
the run; after `N ≥ 1` epochs with nonnegative validation accuracies exactly
one exists, and its embedded epoch is the epoch at which the best validation
accuracy (ties going to the later epoch) was observed.  (A resumed run can
leave two files, see the counterexample.) -/
theorem ckpt_retention (sp : List Char) (accs : List (ℚ × ℚ))
    (hnn : ∀ p ∈ accs, 0 ≤ p.1) :
    (∀ i : ℕ, (runCkpt sp (initCkpt ∅) 0 (accs.take i)).fs.card ≤ 1) ∧
    (accs ≠ [] →
      (runCkpt sp (initCkpt ∅) 0 accs).fs.card = 1 ∧
      ∃ e, ∃ he : e < accs.length,
        (runCkpt sp (initCkpt ∅) 0 accs).fs = {ckptPath sp e accs[e].2} ∧
        parseEpochOfFile (ckptPath sp e accs[e].2) = some e ∧
        accs[e].1 = maxValid accs ∧
        ∀ j, (hj : j < accs.length) → e < j → accs[j].1 < maxValid accs) := by
  constructor
  · intro i
    exact card_le_one_of_inv (runCkpt_inv initCkpt_inv sp 0 _)
  · intro hne
    obtain ⟨e, he, hfn, hfs, hmax, hlast⟩ := runCkpt_fresh_spec sp accs hnn hne
    refine ⟨?_, e, he, hfs, parseEpochOfFile_ckptPath sp e _, hmax, hlast⟩
    rw [hfs]
    simp

/-- Witness for C1 (amended) at `accs = [(1, 1), (2, 3)]` on save path `[]`. -/
theorem ckpt_retention_witness :
    (∀ p ∈ [((1 : ℚ), (1 : ℚ)), (2, 3)], 0 ≤ p.1) ∧
    ((∀ i : ℕ,
        (runCkpt [] (initCkpt ∅) 0 ([((1 : ℚ), (1 : ℚ)), (2, 3)].take i)).fs.card ≤ 1) ∧
      ([((1 : ℚ), (1 : ℚ)), (2, 3)] ≠ [] →
        (runCkpt [] (initCkpt ∅) 0 [((1 : ℚ), (1 : ℚ)), (2, 3)]).fs.card = 1 ∧
        ∃ e, ∃ he : e < [((1 : ℚ), (1 : ℚ)), (2, 3)].length,
          (runCkpt [] (initCkpt ∅) 0 [((1 : ℚ), (1 : ℚ)), (2, 3)]).fs
              = {ckptPath [] e [((1 : ℚ), (1 : ℚ)), (2, 3)][e].2} ∧
          parseEpochOfFile (ckptPath [] e [((1 : ℚ), (1 : ℚ)), (2, 3)][e].2) = some e ∧
          [((1 : ℚ), (1 : ℚ)), (2, 3)][e].1 = maxValid [((1 : ℚ), (1 : ℚ)), (2, 3)] ∧
          ∀ j, (hj : j < [((1 : ℚ), (1 : ℚ)), (2, 3)].length) → e < j →
            [((1 : ℚ), (1 : ℚ)), (2, 3)][j].1 < maxValid [((1 : ℚ), (1 : ℚ)), (2, 3)])) :=
  ⟨by decide, ckpt_retention [] [((1 : ℚ), (1 : ℚ)), (2, 3)] (by decide)⟩

/-- C3: the per-epoch checkpoint decision of `train()`.  For the run over
`accs` (epochs counted from `e0`, directory initially `fs0`), at every epoch
`i`: (a) the run-so-far steps by `ckptStep`; (b) the loop's `best_acc` before
epoch `i` is the maximum of 0 and the earlier validation accuracies; when the
epoch's validation accuracy reaches it, (c) the best value is updated, (d/e)
the file `'{epoch}-{test_acc:.4f}.pt'` is saved into the directory, (f) the
previously recorded file (if any was recorded) is no longer present, while
(g) files other than the recorded one are never deleted; (h) when the
validation accuracy is below `best_acc` nothing changes; and (i) the first
epoch always saves (its validation accuracy being nonnegative). -/
theorem ckpt_decision (sp : List Char) (fs0 : Finset (List Char)) (e0 : ℕ)
    (accs : List (ℚ × ℚ)) (hnn : ∀ p ∈ accs, 0 ≤ p.1)
    (i : ℕ) (hi : i < accs.length) :
    runCkpt sp (initCkpt fs0) e0 (accs.take (i + 1))
        = ckptStep sp (runCkpt sp (initCkpt fs0) e0 (accs.take i)) (e0 + i)
            accs[i].1 accs[i].2 ∧
    (runCkpt sp (initCkpt fs0) e0 (accs.take i)).best_acc
        = maxValid (accs.take i) ∧
    ((runCkpt sp (initCkpt fs0) e0 (accs.take i)).best_acc ≤ accs[i].1 →
      (runCkpt sp (initCkpt fs0) e0 (accs.take (i + 1))).best_acc = accs[i].1 ∧
      (runCkpt sp (initCkpt fs0) e0 (accs.take (i + 1))).file_name
          = ckptPath sp (e0 + i) accs[i].2 ∧
      ckptPath sp (e0 + i) accs[i].2
          ∈ (runCkpt sp (initCkpt fs0) e0 (accs.take (i + 1))).fs ∧
      ((runCkpt sp (initCkpt fs0) e0 (accs.take i)).file_name ≠ [] →
        (runCkpt sp (initCkpt fs0) e0 (accs.take i)).file_name
            ≠ ckptPath sp (e0 + i) accs[i].2 →
        (runCkpt sp (initCkpt fs0) e0 (accs.take i)).file_name
            ∉ (runCkpt sp (initCkpt fs0) e0 (accs.take (i + 1))).fs) ∧
      (∀ f ∈ (runCkpt sp (initCkpt fs0) e0 (accs.take i)).fs,
        f ≠ (runCkpt sp (initCkpt fs0) e0 (accs.take i)).file_name →
        f ∈ (runCkpt sp (initCkpt fs0) e0 (accs.take (i + 1))).fs)) ∧
    (¬ (runCkpt sp (initCkpt fs0) e0 (accs.take i)).best_acc ≤ accs[i].1 →
      runCkpt sp (initCkpt fs0) e0 (accs.take (i + 1))
          = runCkpt sp (initCkpt fs0) e0 (accs.take i)) ∧
    (i = 0 → (runCkpt sp (initCkpt fs0) e0 (accs.take i)).best_acc ≤ accs[i].1) := by
  have hget : accs[i]?.toList = [accs[i]] := by
    rw [List.getElem?_eq_getElem hi]
    rfl
  have hlen : (accs.take i).length = i := by
    rw [List.length_take]
    omega
  have hstep : runCkpt sp (initCkpt fs0) e0 (accs.take (i + 1))
      = ckptStep sp (runCkpt sp (initCkpt fs0) e0 (accs.take i)) (e0 + i)
          accs[i].1 accs[i].2 := by
    rw [List.take_succ, hget, runCkpt_append, hlen]
    simp [runCkpt]
  have hbest : (runCkpt sp (initCkpt fs0) e0 (accs.take i)).best_acc
      = maxValid (accs.take i) := by
    rw [runCkpt_best]
    rfl
  refine ⟨hstep, hbest, ?_, ?_, ?_⟩
  · intro hle
    rw [hstep]
    unfold ckptStep
    rw [if_pos hle]
    refine ⟨rfl, rfl, Finset.mem_insert_self _ _, ?_, ?_⟩
    · intro hrec hne
      simp only [Finset.mem_insert]
      push_neg
      refine ⟨hne, ?_⟩
      split

      · exact Finset.not_mem_erase _ _
      · next hcond =>
        push_neg at hcond
        exact hcond hrec
    · intro f hf hne
      simp only [Finset.mem_insert]
      right
      split
      · exact Finset.mem_erase_of_ne_of_mem hne hf
      · exact hf
  · intro hgt
    rw [hstep]
    unfold ckptStep
    rw [if_neg hgt]
  · intro hzero
    subst hzero
    rw [hbest]
    simp only [List.take_zero]
    have h0 : maxValid [] = 0 := rfl
    rw [h0]
    exact hnn accs[0] (List.getElem_mem hi)

/-- Witness for C3 at the one-epoch run `accs = [(1, 2)]`, epoch index 0. -/
theorem ckpt_decision_witness :
    (∀ p ∈ [((1 : ℚ), (2 : ℚ))], 0 ≤ p.1) ∧ (0 : ℕ) < [((1 : ℚ), (2 : ℚ))].length ∧
    runCkpt [] (initCkpt ∅) 0 ([((1 : ℚ), (2 : ℚ))].take (0 + 1))
      = ckptStep [] (runCkpt [] (initCkpt ∅) 0 ([((1 : ℚ), (2 : ℚ))].take 0)) (0 + 0)
          [((1 : ℚ), (2 : ℚ))][0].1 [((1 : ℚ), (2 : ℚ))][0].2 :=
  ⟨by decide, by decide,
    (ckpt_decision [] ∅ 0 [((1 : ℚ), (2 : ℚ))] (by decide) 0 (by decide)).1⟩

/-! ## Model/checkpoint loader `get_model` (`train_ee.py` lines 113–123)

The network itself lives in `net.py` (not among the sources); its parameter
state is an abstract type `P`.  `torch.load(file)` is modelled by a store
mapping a path to the saved record `{'model': …, 'epoch': …}`;
`glob('{}/*.pt')`'s result is the `files` list. -/

/-- The record `torch.save({'model': state_dict, 'epoch': epoch}, file_name)`
writes (`train_ee.py` line 185). -/
structure CkptRecord (P : Type) where
  model : P
  epoch : ℕ

/-- A fatal Python exception of the loader (`int(...)` on a malformed
checkpoint filename). -/
inductive LoadError : Type
  | valueError
deriving DecidableEq

/-- The loader `get_model` (`train_ee.py` lines 113–123): start from fresh parameters and
`start_epoch = 0`; if `args.resume` is truthy and the glob result is
non-empty, take `files[-1]`, parse the integer before the first `'-'` of its
basename, return that plus one as `start_epoch`, and load the `'model'`
entry of the stored record. -/
def get_model {P : Type} (fresh : P) (store : List Char → CkptRecord P)
    (resume : Bool) (files : List (List Char)) : Except LoadError (P × ℕ) :=
  match resume, files with
  | true, f :: fs =>
    match parseEpochOfFile ((f :: fs).getLast (List.cons_ne_nil f fs)) with
    | some e => .ok ((store ((f :: fs).getLast (List.cons_ne_nil f fs))).model, e + 1)
    | none => .error .valueError
  | _, _ => .ok (fresh, 0)

theorem pairwise_rel_getLast {α : Type} {r : α → α → Prop} {l : List α}
    (hp : l.Pairwise r) (hne : l ≠ []) :
    ∀ a ∈ l, a = l.getLast hne ∨ r a (l.getLast hne) := by
  induction l with
  | nil => exact absurd rfl hne
  | cons x xs ih =>
    intro a ha
    rcases eq_or_ne xs [] with rfl | hxs
    · left
      simp only [List.mem_cons, List.not_mem_nil, or_false] at ha
      subst ha
      rfl
    · have hLast : (x :: xs).getLast hne = xs.getLast hxs :=
        List.getLast_cons hxs
      obtain ⟨hhead, htail⟩ := List.pairwise_cons.mp hp
      rcases List.mem_cons.mp ha with rfl | ha'
      · right
        rw [hLast]
        exact hhead _ (List.getLast_mem hxs)
      · rw [hLast]
        exact ih htail hxs a ha'

end TrainEE

namespace TrainEE

/-- C2: with resume requested and a non-empty glob result the loader returns
the `'model'` entry stored at `files[-1]` and `start_epoch` = (integer before
the first `'-'` of the basename) + 1; `files[-1]` is the lexicographically
greatest entry whenever the glob listing is lexicographically sorted; with
resume off or no checkpoint it returns fresh parameters and `start_epoch = 0`. -/
theorem get_model_spec {P : Type} (fresh : P) (store : List Char → CkptRecord P)
    (resume : Bool) (files : List (List Char)) :
    (∀ hne : files ≠ [], resume = true →
      (∀ e, parseEpochOfFile (files.getLast hne) = some e →
        get_model fresh store resume files
          = .ok ((store (files.getLast hne)).model, e + 1)) ∧
      (parseEpochOfFile (files.getLast hne) = none →
        get_model fresh store resume files = .error .valueError) ∧
      (files.Pairwise (List.Lex (· < ·)) →
        ∀ f ∈ files, f = files.getLast hne ∨ List.Lex (· < ·) f (files.getLast hne))) ∧
    (resume = false ∨ files = [] →
      get_model fresh store resume files = .ok (fresh, 0)) := by
  constructor
  · intro hne hres
    subst hres
    match files, hne with
    | f :: fs, _ =>
      have hdef : get_model fresh store true (f :: fs)
          = match parseEpochOfFile ((f :: fs).getLast (List.cons_ne_nil f fs)) with
            | some e =>
                Except.ok ((store ((f :: fs).getLast (List.cons_ne_nil f fs))).model, e + 1)
            | none => Except.error LoadError.valueError := rfl
      refine ⟨?_, ?_, fun hp => pairwise_rel_getLast hp _⟩
      · intro e he
        rw [hdef, he]
      · intro he
        rw [hdef, he]
  · intro h
    rcases h with rfl | rfl
    · unfold get_model
      match files with
      | [] => rfl
      | f :: fs => rfl
    · match resume with
      | true => rfl
      | false => rfl

/-- Witness for C2: resuming with the single checkpoint file `"12"` (digits
`'1' '2'`, no `'-'`) yields the stored model `7` and `start_epoch = 13`. -/
theorem get_model_spec_witness :
    ([[Char.ofNat 49, Char.ofNat 50]] : List (List Char)) ≠ [] ∧
    parseEpochOfFile
        (([[Char.ofNat 49, Char.ofNat 50]] : List (List Char)).getLast (by decide))
      = some 12 ∧
    get_model (0 : ℕ) (fun _ => ⟨7, 9⟩) true [[Char.ofNat 49, Char.ofNat 50]]
      = .ok (7, 13) :=
  ⟨by decide, by decide,
    ((get_model_spec (0 : ℕ) (fun _ => ⟨7, 9⟩) true
        [[Char.ofNat 49, Char.ofNat 50]]).1 (by decide) rfl).1 12 (by decide)⟩

/-- C9: the `'epoch'` entry of the checkpoint record is never read back: the
loader's entire result is unchanged when the stored epochs change (only the
`'model'` entries matter), and the returned `start_epoch` does not depend on
the store at all (it is parsed from the filename). -/
theorem get_model_ignores_stored_epoch {P : Type} (fresh : P)
    (store₁ store₂ store₃ : List Char → CkptRecord P)
    (resume : Bool) (files : List (List Char))
    (h : ∀ f, (store₁ f).model = (store₂ f).model) :
    get_model fresh store₁ resume files = get_model fresh store₂ resume files ∧
    Except.map Prod.snd (get_model fresh store₁ resume files)
      = Except.map Prod.snd (get_model fresh store₃ resume files) := by
  constructor
  · unfold get_model
    match resume, files with
    | true, f :: fs =>
      simp only
      split
      · rw [h]
      · rfl
    | true, [] => rfl
    | false, l => rfl
  · unfold get_model
    match resume, files with
    | true, f :: fs =>
      simp only
      split
      · rfl
      · rfl
    | true, [] => rfl
    | false, l => rfl

/-- Witness for C9: stores sharing the model entry `5` but with different
epoch entries (100, 0), and a third store with a different model entirely. -/
theorem get_model_ignores_stored_epoch_witness :
    get_model (0 : ℕ) (fun _ => ⟨5, 100⟩) true [[Char.ofNat 49]]
        = get_model (0 : ℕ) (fun _ => ⟨5, 0⟩) true [[Char.ofNat 49]] ∧
    Except.map Prod.snd (get_model (0 : ℕ) (fun _ => ⟨5, 100⟩) true [[Char.ofNat 49]])
        = Except.map Prod.snd
            (get_model (0 : ℕ) (fun _ => ⟨99, 3⟩) true [[Char.ofNat 49]]) :=
  get_model_ignores_stored_epoch (0 : ℕ) (fun _ => ⟨5, 100⟩) (fun _ => ⟨5, 0⟩)
    (fun _ => ⟨99, 3⟩) true [[Char.ofNat 49]] (fun _ => rfl)

end TrainEE

namespace TrainEE

/-! ## Evaluation routine `test` (`train_ee.py` lines 92–110)

The network is abstract: a `forward` function from parameters, mode and the
two channel inputs to `(c1, c2, o1, o2)`, where `c1`/`c2` are per-example
logit rows.  `torch.nn.CrossEntropyLoss` is likewise an abstract per-batch
function `xent`.  Signals are an abstract type `S`; auxiliary outputs an
abstract type `A`. -/

/-- One example of a batch with its two signal channels:
`ch0` is `data[:, 0, :]` (EEG), `ch1` is `data[:, 1, :]` (EOG). -/
structure Example (S : Type) where
  ch0 : S
  ch1 : S

/-- One batch of a data loader: examples and integer class labels. -/
structure Batch (S : Type) where
  data : List (Example S)
  target : List ℕ

/-- The model object: learnable parameters plus the train/eval mode flag
(`model.train()` / `model.eval()`). -/
structure Model (P : Type) where
  params : P
  training : Bool

/-- Python `torch.max(cout, 1)[1]` per row: the first index attaining the maximum of
the row (0 for an empty row). -/
def idxMax : List ℚ → ℕ
  | [] => 0
  | x :: xs => if xs.all fun y => y ≤ x then 0 else 1 + idxMax xs

/-- Python `torch.sum(pred == target)` for one batch: the number of rows whose
argmax equals the label. -/
def countCorrect (cout : List (List ℚ)) (target : List ℕ) : ℕ :=
  (List.zipWith (fun l t => if idxMax l = t then 1 else 0) cout target).sum

/-- The combined logits `cout = c1 + c2` of one batch under eval mode, the
forward pass receiving `(data_eog, data_eeg)` (`train_ee.py` line 103). -/
def coutOf {P S A : Type}
    (forward : P → Bool → List S → List S → List (List ℚ) × List (List ℚ) × A × A)
    (p : P) (b : Batch S) : List (List ℚ) :=
  let out := forward p false (b.data.map Example.ch1) (b.data.map Example.ch0)
  List.zipWith (List.zipWith (· + ·)) out.1 out.2.1

/-- The evaluation routine `test(model, target_test_loader)`: switch to eval
mode, loop over the batches accumulating the per-batch loss in an
`AverageMeter` (weight 1) and the correct count, and return
`(100. * correct / len(dataset), test_loss.avg)` together with the model
object as the loop left it. -/
def testRun {P S A : Type}
    (forward : P → Bool → List S → List S → List (List ℚ) × List (List ℚ) × A × A)
    (xent : List (List ℚ) → List ℕ → ℚ)
    (m : Model P) (loader : List (Batch S)) (datasetLen : ℕ) :
    Model P × ℚ × ℚ :=
  let mEval : Model P := { m with training := false }
  let res := loader.foldl
    (fun (acc : AverageMeter × ℕ) b =>
      let cout := coutOf forward mEval.params b
      (acc.1.update (xent cout b.target) 1, acc.2 + countCorrect cout b.target))
    (AverageMeter.reset, 0)
  (mEval, 100 * (res.2 : ℚ) / (datasetLen : ℚ), res.1.avg)

theorem testRun_foldl {P S A : Type}
    (forward : P → Bool → List S → List S → List (List ℚ) × List (List ℚ) × A × A)
    (xent : List (List ℚ) → List ℕ → ℚ) (p : P)
    (loader : List (Batch S)) (mt : AverageMeter) (c : ℕ) :
    loader.foldl
      (fun (acc : AverageMeter × ℕ) b =>
        let cout := coutOf forward p b
        (acc.1.update (xent cout b.target) 1, acc.2 + countCorrect cout b.target))
      (mt, c)
    = (AverageMeter.runUpdates mt
        (loader.map fun b => (xent (coutOf forward p b) b.target, 1)),
       c + (loader.map fun b => countCorrect (coutOf forward p b) b.target).sum) := by
  induction loader generalizing mt c with
  | nil => simp [AverageMeter.runUpdates]
  | cons b rest ih =>
    simp only [List.foldl_cons, List.map_cons, List.sum_cons]
    rw [ih]
    simp only [AverageMeter.runUpdates, List.foldl_cons]
    rw [Nat.add_assoc]

theorem sum_map_one {α : Type} (l : List α) :
    (l.map fun _ => (1 : ℚ)).sum = (l.length : ℚ) := by
  induction l with
  | nil => simp
  | cons a t ih =>
    simp [ih]
    ring

end TrainEE

namespace TrainEE

/-- C5: the evaluation routine returns
`(100 * correct_count / dataset_size, mean of per-batch cross-entropy)` where
`correct_count` counts examples whose argmax of `c1 + c2` equals the label,
the loss mean is unweighted over batches, and the model parameters are not
mutated (only the mode flag is set to eval). -/
theorem test_spec {P S A : Type}
    (forward : P → Bool → List S → List S → List (List ℚ) × List (List ℚ) × A × A)
    (xent : List (List ℚ) → List ℕ → ℚ)
    (m : Model P) (loader : List (Batch S)) (datasetLen : ℕ) :
    (testRun forward xent m loader datasetLen).1.params = m.params ∧
    (testRun forward xent m loader datasetLen).2.1
      = 100 * (((loader.map fun b =>
            countCorrect (coutOf forward m.params b) b.target).sum : ℕ) : ℚ)
          / (datasetLen : ℚ) ∧
    (testRun forward xent m loader datasetLen).2.2
      = (loader.map fun b => xent (coutOf forward m.params b) b.target).sum
          / (loader.length : ℚ) := by
  have hT : testRun forward xent m loader datasetLen
      = (⟨m.params, false⟩,
         100 * (((loader.map fun b =>
              countCorrect (coutOf forward m.params b) b.target).sum : ℕ) : ℚ)
            / (datasetLen : ℚ),
         (AverageMeter.runUpdates AverageMeter.reset
            (loader.map fun b => (xent (coutOf forward m.params b) b.target, 1))).avg) := by
    simp only [testRun]
    rw [testRun_foldl]
    simp
  have havg : (AverageMeter.runUpdates AverageMeter.reset
        (loader.map fun b => (xent (coutOf forward m.params b) b.target, 1))).avg
      = (loader.map fun b => xent (coutOf forward m.params b) b.target).sum
          / (loader.length : ℚ) := by
    rcases eq_or_ne loader [] with rfl | hne
    · simp [AverageMeter.runUpdates, AverageMeter.reset]
    · have hpne : (loader.map fun b =>
          (xent (coutOf forward m.params b) b.target, 1)) ≠ ([] : List (ℚ × ℚ)) := by
        simpa using hne
      rw [AverageMeter.avg_runUpdates_ne_nil _ _ hpne,
        AverageMeter.sum_runUpdates, AverageMeter.count_runUpdates]
      have h1 : ((loader.map fun b =>
            (xent (coutOf forward m.params b) b.target, 1)).map fun p => p.1 * p.2)
          = loader.map fun b => xent (coutOf forward m.params b) b.target := by
        rw [List.map_map]
        simp
      have h2 : ((loader.map fun b =>
            (xent (coutOf forward m.params b) b.target, 1)).map Prod.snd).sum
          = (loader.length : ℚ) := by
        rw [List.map_map]
        exact sum_map_one loader
      rw [h1, h2]
      simp [AverageMeter.reset]
  rw [hT]
  exact ⟨rfl, rfl, havg⟩

/-- C7: two successive runs of the evaluation routine with no training in
between (the second run receiving the model object as the first one left it)
return identical results — same accuracy, same loss, same model state. -/
theorem test_two_runs {P S A : Type}
    (forward : P → Bool → List S → List S → List (List ℚ) × List (List ℚ) × A × A)
    (xent : List (List ℚ) → List ℕ → ℚ)
    (m : Model P) (loader : List (Batch S)) (datasetLen : ℕ) :
    testRun forward xent (testRun forward xent m loader datasetLen).1 loader datasetLen
      = testRun forward xent m loader datasetLen := rfl

end TrainEE

namespace TrainEE

/-! ## Entry point (`train_ee.py` lines 210–214)

`for fold in range(args.start, args.end)`: per fold, `init_path` (directory
and logger), `get_model`, `get_dataset`, `train`, in that order.  The loop is
modelled as the trace of these four actions per fold. -/

/-- One step of the per-fold body of the entry point's loop. -/
inductive FoldEvent : Type
  | initPath (fold : ℕ)
  | getModel (fold : ℕ)
  | getDataset (fold : ℕ)
  | trainFold (fold : ℕ)
deriving DecidableEq

/-- The per-fold block: `init_path`, `get_model`, `get_dataset`, `train`. -/
def foldBlock (f : ℕ) : List FoldEvent :=
  [FoldEvent.initPath f, FoldEvent.getModel f, FoldEvent.getDataset f,
    FoldEvent.trainFold f]

/-- The entry point's loop `for fold in range(start, end)` as an event trace
(`range(a, b)` is the ascending half-open integer range, empty for `b ≤ a`). -/
def mainLoop (start stop : ℕ) : List FoldEvent :=
  (List.range' start (stop - start)).flatMap foldBlock

/-- The fold of an `init_path` event (the creation of that fold's run
directory and logger), `none` on the other events. -/
def initFoldOf : FoldEvent → Option ℕ
  | FoldEvent.initPath f => some f
  | _ => none

theorem filterMap_initFoldOf_foldBlock (f : ℕ) :
    (foldBlock f).filterMap initFoldOf = [f] := rfl

theorem filterMap_initFoldOf_mainLoop (start stop : ℕ) :
    (mainLoop start stop).filterMap initFoldOf = List.range' start (stop - start) := by
  unfold mainLoop
  generalize List.range' start (stop - start) = l
  induction l with
  | nil => rfl
  | cons x xs ih =>
    rw [show (x :: xs).flatMap foldBlock = foldBlock x ++ xs.flatMap foldBlock by rfl,
      List.filterMap_append, filterMap_initFoldOf_foldBlock, ih]
    rfl

end TrainEE

namespace TrainEE

/-- C6: the entry point processes exactly the folds of the half-open range
`[start, stop)` in ascending order, one `init_path`/`get_model`/`get_dataset`
/`train` block per fold, each block occurring contiguously inside the trace;
for `start = 21`, `stop = 31` exactly ten folds are processed. -/
theorem mainLoop_spec (start stop : ℕ) :
    (mainLoop start stop).filterMap initFoldOf = List.range' start (stop - start) ∧
    ((mainLoop start stop).filterMap initFoldOf).Pairwise (· < ·) ∧
    (∀ f, f ∈ (mainLoop start stop).filterMap initFoldOf ↔ start ≤ f ∧ f < stop) ∧
    ((mainLoop start stop).filterMap initFoldOf).length = stop - start ∧
    (∀ f, start ≤ f → f < stop → foldBlock f <:+: mainLoop start stop) ∧
    (start = 21 → stop = 31 → ((mainLoop start stop).filterMap initFoldOf).length = 10) := by
  have hfm := filterMap_initFoldOf_mainLoop start stop
  refine ⟨hfm, ?_, ?_, ?_, ?_, ?_⟩
  · rw [hfm]
    exact List.pairwise_lt_range' start (stop - start)
  · intro f
    rw [hfm, List.mem_range']
    constructor
    · rintro ⟨i, hi, rfl⟩
      omega
    · intro ⟨h1, h2⟩
      exact ⟨f - start, by omega, by omega⟩
  · rw [hfm, List.length_range']
  · intro f h1 h2
    have hf : f ∈ List.range' start (stop - start) := by
      rw [List.mem_range']
      exact ⟨f - start, by omega, by omega⟩
    obtain ⟨l₁, l₂, hsplit⟩ := List.append_of_mem hf
    refine ⟨l₁.flatMap foldBlock, l₂.flatMap foldBlock, ?_⟩
    unfold mainLoop
    rw [hsplit]
    rw [List.flatMap_append]
    rw [show (f :: l₂).flatMap foldBlock = foldBlock f ++ l₂.flatMap foldBlock by rfl]
    rw [List.append_assoc]
  · intro h1 h2
    subst h1
    subst h2
    rw [hfm]
    rfl

/-- Witness for C6 at `start = 21`, `stop = 31`: ten folds, fold 25's block is
a contiguous part of the trace. -/
theorem mainLoop_spec_witness :
    ((mainLoop 21 31).filterMap initFoldOf).length = 10 ∧
    (21 ≤ 25 ∧ 25 < 31 ∧ foldBlock 25 <:+: mainLoop 21 31) :=
  ⟨(mainLoop_spec 21 31).2.2.2.2.2 rfl rfl,
    by decide, by decide, (mainLoop_spec 21 31).2.2.2.2.1 25 (by decide) (by decide)⟩

end TrainEE

namespace TrainEE

/-! ## Dataset adapter `MData` (`train_ee.py` lines 31–58)

A Python object's attributes can be absent: the `transformations` field is
`none` when the attribute was never assigned (reading it raises
`AttributeError`), `some x` when it was assigned `x` (itself an `Option`:
Python `None` or a transform function). -/

/-- The attribute state of an `MData` instance. -/
structure MDataObj (S L : Type) where
  data : List S
  label : List L
  transformations : Option (Option (S → S))

/-- The exceptions `__getitem__` can raise. -/
inductive ItemError : Type
  | indexError
  | attributeError
deriving DecidableEq

/-- Python `MData.__init__`: sets `data = []` and `label = []` (the body is a stub,
"Adjusted to the dataset in use"); `transformations` is never assigned. -/
def MData_init (S L : Type) : MDataObj S L := ⟨[], [], none⟩

/-- Python `MData.__len__`: `len(self.label)`. -/
def MData_len {S L : Type} (m : MDataObj S L) : ℕ := m.label.length

/-- Python `MData.__getitem__(idx)`: index `data`, index `label`, then read
`self.transformations` (raising `AttributeError` if it was never assigned)
and apply it to the signal unless it is `None`. -/
def MData_getitem {S L : Type} (m : MDataObj S L) (idx : ℕ) :
    Except ItemError (S × L) :=
  match m.data[idx]? with
  | none => .error .indexError
  | some signal =>
    match m.label[idx]? with
    | none => .error .indexError
    | some label =>
      match m.transformations with
      | none => .error .attributeError
      | some t => .ok (t.elim signal fun f => f signal, label)

end TrainEE

namespace TrainEE

/-- C8 counterexample: item access on a freshly constructed `MData` at index
0 fails with an `IndexError`, not with an `AttributeError` — `data` is empty,
so the indexing on line 54 fails before the missing `transformations`
attribute is ever read. -/
theorem mdata_getitem_counterexample :
    MData_getitem (MData_init Unit Unit) 0 ≠ Except.error ItemError.attributeError ∧
    MData_getitem (MData_init Unit Unit) 0 = Except.error ItemError.indexError :=
  ⟨fun h => by simp [MData_getitem, MData_init] at h, rfl⟩

/-- C8 (amended): item access on a freshly constructed `MData` fails at every
index — with an index error, since the constructor leaves `data` empty; the
attribute-error branch is the outcome exactly when the index lies inside both
`data` and `label` (an instance populated after construction) while
`transformations` was never assigned. -/
theorem mdata_getitem_fails {S L : Type} (idx : ℕ) :
    MData_getitem (MData_init S L) idx = Except.error ItemError.indexError ∧
    (∀ m : MDataObj S L, m.transformations = none →
      idx < m.data.length → idx < m.label.length →
        MData_getitem m idx = Except.error ItemError.attributeError) := by
  constructor
  · rfl
  · intro m hm h1 h2
    unfold MData_getitem
    rw [List.getElem?_eq_getElem h1, List.getElem?_eq_getElem h2, hm]

/-- Witness for C8 (amended) at index 0, with the populated instance
`⟨[()], [()], unassigned⟩`. -/
theorem mdata_getitem_fails_witness :
    MData_getitem (MData_init Unit Unit) 0 = Except.error ItemError.indexError ∧
    (MDataObj.mk [()] [()] none : MDataObj Unit Unit).transformations = none ∧
    0 < (MDataObj.mk [()] [()] none : MDataObj Unit Unit).data.length ∧
    MData_getitem (MDataObj.mk [()] [()] none : MDataObj Unit Unit) 0
      = Except.error ItemError.attributeError :=
  ⟨(mdata_getitem_fails 0).1, rfl, by decide,
    (mdata_getitem_fails 0).2 (MDataObj.mk [()] [()] none) rfl (by decide) (by decide)⟩

end TrainEE

namespace TrainEE

/-! ## The auxiliary loss target `tar` (`train_ee.py` lines 150, 163–165)

`tar = None` is set once before the epoch loop; inside the batch loop
`tar = torch.ones_like(label)` is assigned only when `args.loss == 'cos'`,
and `criterion(c1, label, c2, label, o1, o2, tar)` then receives the current
value.  The batches of all epochs are flattened into one list (the variable
persists across epoch boundaries). -/

/-- The string `'cos'`. -/
def cosChars : List Char := [Char.ofNat 99, Char.ofNat 111, Char.ofNat 115]

/-- The conditional assignment `if args.loss == 'cos': tar = torch.ones_like(label)`. -/
def tarUpdate (lossMode : List Char) (label : List ℕ) (tar : Option (List ℕ)) :
    Option (List ℕ) :=
  if lossMode = cosChars then some (List.replicate label.length 1) else tar

/-- The sequence of `tar` arguments handed to the criterion, one per batch,
given the batches' label tensors. -/
def tarTrace (lossMode : List Char) (tar : Option (List ℕ)) :
    List (List ℕ) → List (Option (List ℕ))
  | [] => []
  | label :: rest =>
      tarUpdate lossMode label tar ::
        tarTrace lossMode (tarUpdate lossMode label tar) rest

/-- C10: when the configured loss mode is not `'cos'`, the criterion receives
`tar = None` on every batch of every epoch. -/
theorem tar_none_of_not_cos (lossMode : List Char) (h : lossMode ≠ cosChars)
    (labels : List (List ℕ)) :
    tarTrace lossMode none labels = List.replicate labels.length none := by
  induction labels with
  | nil => rfl
  | cons l rest ih =>
    simp only [tarTrace, tarUpdate, if_neg h, List.length_cons, List.replicate_succ]
    rw [ih]

/-- Witness for C10 with loss mode `'mse'` and two batches. -/
theorem tar_none_of_not_cos_witness :
    ([Char.ofNat 109, Char.ofNat 115, Char.ofNat 101] : List Char) ≠ cosChars ∧
    tarTrace [Char.ofNat 109, Char.ofNat 115, Char.ofNat 101] none [[0], [1, 2]]
      = List.replicate 2 none :=
  ⟨by decide, tar_none_of_not_cos [Char.ofNat 109, Char.ofNat 115, Char.ofNat 101]
    (by decide) [[0], [1, 2]]⟩

end TrainEE

namespace TrainEE

/-- C4: for every sequence of `update(value_i, weight_i)` calls with all
`weight_i > 0` following a `reset()`, the meter's `avg` equals
`sum(value_i*weight_i) / sum(weight_i)`, its `sum` equals
`sum(value_i*weight_i)`, and its `count` equals `sum(weight_i)`. -/
theorem averageMeter_update_spec (l : List (ℚ × ℚ))
    (hw : ∀ p ∈ l, 0 < p.2) :
    (AverageMeter.runUpdates AverageMeter.reset l).avg
        = (l.map fun p => p.1 * p.2).sum / (l.map Prod.snd).sum ∧
    (AverageMeter.runUpdates AverageMeter.reset l).sum
        = (l.map fun p => p.1 * p.2).sum ∧
    (AverageMeter.runUpdates AverageMeter.reset l).count
        = (l.map Prod.snd).sum := by
  have hs := AverageMeter.sum_runUpdates AverageMeter.reset l
  have hc := AverageMeter.count_runUpdates AverageMeter.reset l
  rw [show AverageMeter.reset.sum = 0 from rfl, zero_add] at hs
  rw [show AverageMeter.reset.count = 0 from rfl, zero_add] at hc
  refine ⟨?_, hs, hc⟩
  rcases eq_or_ne l [] with rfl | hne
  · simp [AverageMeter.runUpdates, AverageMeter.reset]
  · rw [AverageMeter.avg_runUpdates_ne_nil _ _ hne, hs, hc]

/-- Witness for C4 at the concrete update sequence
`[(3, 1), (5, 2)]`: average `13/3`, sum `13`, count `3`. -/
theorem averageMeter_update_spec_witness :
    (AverageMeter.runUpdates AverageMeter.reset [(3, 1), (5, 2)]).avg
        = ([((3 : ℚ), (1 : ℚ)), (5, 2)].map fun p => p.1 * p.2).sum
          / ([((3 : ℚ), (1 : ℚ)), (5, 2)].map Prod.snd).sum ∧
    (AverageMeter.runUpdates AverageMeter.reset [(3, 1), (5, 2)]).sum
        = ([((3 : ℚ), (1 : ℚ)), (5, 2)].map fun p => p.1 * p.2).sum ∧
    (AverageMeter.runUpdates AverageMeter.reset [(3, 1), (5, 2)]).count
        = ([((3 : ℚ), (1 : ℚ)), (5, 2)].map Prod.snd).sum :=
  averageMeter_update_spec [(3, 1), (5, 2)] (by decide)

end TrainEE
